import Mathlib

/-!
Verification of the textern native-messaging host (src/native/textern.py)
against its natural-language specification.

The Python source is shallowly embedded: Python strings (sequences of
Unicode code points) become `List Char`, byte streams become `List Nat`
(each element a byte value), dictionaries become association lists, the
process table and filesystem effects become explicit data, and Python
exceptions become `Except PyErr`.  Every definition is translated from the
source file; definitions that instead follow the words of the
specification (for comparison with the code) say so in their doc comment.
-/

set_option maxHeartbeats 1000000

namespace Textern

/-- The Python exceptions that the embedded fragments can raise. -/
inductive PyErr where
  | typeError
  | valueError
  | attributeError
  | assertionError
  | keyError
  | structError
  | exception
deriving DecidableEq

/-! ### Message framing: handle_stdin, lines 159-173

The stdin stream is modelled as the complete list of bytes that will be
delivered before the stream closes; a blocking read of n bytes returns
min(n, remaining) bytes, exactly as a buffered read at end of file does. -/

/-- Outcome of one attempt to read a frame in handle_stdin. -/
inductive FrameResult where
  /-- raw_length was empty: the loop returns normally (line 162-163). -/
  | eof
  /-- struct.unpack applied to a buffer of fewer than 4 bytes raises
  struct.error (line 164). -/
  | structError
  /-- the explicit raise at lines 166-168: expected bytes vs got bytes. -/
  | framingError (expected got : Nat)
  /-- a complete frame: payload bytes and the rest of the stream. -/
  | frame (payload rest : List Nat)
deriving DecidableEq

/-- struct.unpack with format @I (line 164): native-order unsigned 32-bit
integer, modelled little-endian; defined only on buffers of exactly 4
bytes, otherwise struct.error (modelled as none). -/
def unpackNativeUInt (bs : List Nat) : Option Nat :=
  if bs.length = 4 then
    some (bs.getD 0 0 + 256 * bs.getD 1 0 + 65536 * bs.getD 2 0 +
      16777216 * bs.getD 3 0)
  else none

/-- Lines 160-168 of handle_stdin: read 4 bytes; return on an empty read;
unpack the length; read that many payload bytes; raise if fewer arrive. -/
def readFrame (s : List Nat) : FrameResult :=
  let raw_length := s.take 4
  if raw_length.length = 0 then .eof
  else
    match unpackNativeUInt raw_length with
    | none => .structError
    | some length =>
      let rest := s.drop 4
      let raw_message := rest.take length
      if raw_message.length ≠ length then .framingError length raw_message.length
      else .frame raw_message (rest.drop length)

/-! ### offset_to_line_and_column, lines 201-210

Python strings are sequences of Unicode code points, modelled as
`List Char`. -/

/-- Line 202: offset = max(0, min(len(text), offset)). -/
def clampOffset (text : List Char) (offset : Int) : Nat :=
  (max 0 (min (text.length : Int) offset)).toNat

/-- Python str.rindex for the single character newline: index of the last
occurrence, none when absent (where Python raises ValueError). -/
def rfindNL : List Char → Option Nat
  | [] => none
  | c :: cs =>
    match rfindNL cs with
    | some j => some (j + 1)
    | none => if c = '\n' then some 0 else none

/-- Lines 201-210, statement by statement: clamp the offset, slice the
prefix, count newlines, and derive the column either as the offset (no
newline in the prefix) or as the length of the slice after the last
newline.  The final match arm is unreachable: rindex finds a newline
whenever the count is nonzero. -/
def offset_to_line_and_column (text : List Char) (offset : Int) : Nat × Nat :=
  let off := clampOffset text offset
  let t := text.take off
  let line := t.count '\n'
  if line = 0 then (line, off)
  else
    match rfindNL t with
    | some ri => (line, (t.drop (ri + 1)).length)
    | none => (line, 0)

/-- Modelled from the spec: the number of characters since the last
newline of a string, i.e. the length of its longest newline-free
suffix. -/
def charsSinceLastNL (l : List Char) : Nat :=
  (l.reverse.takeWhile (fun c => c ≠ '\n')).length

/-! ### get_final_editor_args, lines 176-194 -/

/-- Python substring containment (the in operator on str); an empty
pattern is contained in every string. -/
def containsSub (pat : List Char) : List Char → Bool
  | [] => pat.isEmpty
  | c :: cs => pat.isPrefixOf (c :: cs) || containsSub pat cs

/-- Python str.replace: replace every non-overlapping occurrence of pat
with rep, scanning left to right.  It is only invoked on nonempty
patterns in the source. -/
def replaceAll (pat rep : List Char) (s : List Char) : List Char :=
  match s with
  | [] => []
  | c :: cs =>
    if h : pat ≠ [] ∧ pat.isPrefixOf (c :: cs) then
      rep ++ replaceAll pat rep ((c :: cs).drop pat.length)
    else c :: replaceAll pat rep cs
termination_by s.length
decreasing_by
  · have hp : 1 ≤ pat.length := by
      cases pat with
      | nil => exact absurd rfl h.1
      | cons p ps => simp
    simp only [List.length_drop, List.length_cons]
    omega
  · simp

/-- Python str(n) for a natural number. -/
def natChars (n : Nat) : List Char := (Nat.repr n).data

/-- The placeholder patterns of lines 180-189. -/
def pS : List Char := ['%', 's']

def plLower : List Char := ['%', 'l']

def plUpper : List Char := ['%', 'L']

def pcLower : List Char := ['%', 'c']

def pcUpper : List Char := ['%', 'C']

/-- Lines 179-191: the per-token substitution chain of
get_final_editor_args in source order; each replace is guarded by a
containment test on the current value of arg, exactly as in the source. -/
def substArg (absfn : List Char) (line column : Nat) (arg : List Char) :
    List Char :=
  let a1 := if containsSub pS arg then replaceAll pS absfn arg else arg
  let a2 :=
    if containsSub plLower a1 then replaceAll plLower (natChars (line + 1)) a1
    else a1
  let a3 :=
    if containsSub plUpper a2 then replaceAll plUpper (natChars line) a2
    else a2
  let a4 :=
    if containsSub pcLower a3 then
      replaceAll pcLower (natChars (column + 1)) a3
    else a3
  if containsSub pcUpper a4 then replaceAll pcUpper (natChars column) a4
  else a4

/-- The loop of lines 177-193: builds the output list while tracking
fn_added, which is set when a token contains the filename placeholder;
after the loop the absolute path is appended when fn_added is still
false. -/
def gfeaLoop (absfn : List Char) (line column : Nat) :
    List (List Char) → Bool → List (List Char)
  | [], fn_added => if fn_added then [] else [absfn]
  | arg :: rest, fn_added =>
    substArg absfn line column arg ::
      gfeaLoop absfn line column rest (fn_added || containsSub pS arg)

/-- get_final_editor_args, lines 176-194. -/
def get_final_editor_args (editor_args : List (List Char))
    (absfn : List Char) (line column : Nat) : List (List Char) :=
  gfeaLoop absfn line column editor_args false

/-! ### UTF-8 codec

Models text.encode("utf-8") at line 83 and the encoding="utf-8" read at
line 107.  A Lean Char is exactly a Unicode scalar value, matching a
code point of a Python str; bytes are Nat values below 256. -/

/-- UTF-8 encoding of one Unicode scalar value. -/
def utf8EncodeScalar (n : Nat) : List Nat :=
  if n < 0x80 then [n]
  else if n < 0x800 then [0xC0 + n / 64, 0x80 + n % 64]
  else if n < 0x10000 then
    [0xE0 + n / 4096, 0x80 + n / 64 % 64, 0x80 + n % 64]
  else
    [0xF0 + n / 262144, 0x80 + n / 4096 % 64, 0x80 + n / 64 % 64,
      0x80 + n % 64]

/-- UTF-8 encoding of a string. -/
def utf8Encode : List Char → List Nat
  | [] => []
  | c :: cs => utf8EncodeScalar c.toNat ++ utf8Encode cs

/-- Strict decoding of one UTF-8 sequence at the head of a byte list:
the scalar value and the remaining bytes, or none on any malformed head
(bad leading byte, truncated or malformed continuation, overlong
encoding, surrogate, value beyond U+10FFFF), as the Python utf-8 codec
behaves on read. -/
def utf8DecodeOne : List Nat → Option (Nat × List Nat)
  | [] => none
  | b :: bs =>
    if b < 0x80 then some (b, bs)
    else if b < 0xC2 then none
    else if b < 0xE0 then
      match bs with
      | b1 :: bs1 =>
        if 0x80 ≤ b1 ∧ b1 < 0xC0 then
          some ((b - 0xC0) * 64 + (b1 - 0x80), bs1)
        else none
      | [] => none
    else if b < 0xF0 then
      match bs with
      | b1 :: b2 :: bs2 =>
        if (0x80 ≤ b1 ∧ b1 < 0xC0) ∧ (0x80 ≤ b2 ∧ b2 < 0xC0) then
          let n := (b - 0xE0) * 4096 + (b1 - 0x80) * 64 + (b2 - 0x80)
          if n < 0x800 then none
          else if 0xD800 ≤ n ∧ n < 0xE000 then none
          else some (n, bs2)
        else none
      | _ => none
    else if b < 0xF5 then
      match bs with
      | b1 :: b2 :: b3 :: bs3 =>
        if (0x80 ≤ b1 ∧ b1 < 0xC0) ∧ (0x80 ≤ b2 ∧ b2 < 0xC0) ∧
            (0x80 ≤ b3 ∧ b3 < 0xC0) then
          let n := (b - 0xF0) * 262144 + (b1 - 0x80) * 4096 +
            (b2 - 0x80) * 64 + (b3 - 0x80)
          if n < 0x10000 then none
          else if 0x10FFFF < n then none
          else some (n, bs3)
        else none
      | _ => none
    else none

/-- Strict UTF-8 decoding of a whole byte list: decode sequences until
the input is exhausted; any malformed sequence makes the whole decode
fail, as the Python utf-8 codec does on read.  The termination argument
inlines a proof that a successful utf8DecodeOne consumes at least one
byte. -/
def utf8Decode (s : List Nat) : Option (List Char) :=
  match hs : utf8DecodeOne s with
  | none => if s.isEmpty then some [] else none
  | some (n, rest) => (utf8Decode rest).map (fun t => Char.ofNat n :: t)
termination_by s.length
decreasing_by
  cases s with
  | nil => simp [utf8DecodeOne] at hs
  | cons b bs =>
    simp only [utf8DecodeOne] at hs
    split at hs
    · injection hs with hs2
      cases hs2
      simp
    · split at hs
      · cases hs
      · split at hs
        · split at hs
          · split at hs
            · injection hs with hs2
              injection hs2 with hs3 hs4
              subst hs4
              simp only [List.length_cons]
              omega
            · cases hs
          · cases hs
        · split at hs
          · split at hs
            · split at hs
              · split at hs
                · cases hs
                · split at hs
                  · cases hs
                  · injection hs with hs2
                    injection hs2 with hs3 hs4
                    subst hs4
                    simp only [List.length_cons]
                    omega
              · cases hs
            · cases hs
          · split at hs
            · split at hs
              · split at hs
                · split at hs
                  · cases hs
                  · split at hs
                    · cases hs
                    · injection hs with hs2
                      injection hs2 with hs3 hs4
                      subst hs4
                      simp only [List.length_cons]
                      omega
                · cases hs
              · cases hs
            · cases hs

/-! ### urllib.parse.quote with safe set empty, line 76 -/

/-- The sixteen uppercase hexadecimal digit characters. -/
def hexDigits : List Char :=
  ['0', '1', '2', '3', '4', '5', '6', '7', '8', '9', 'A', 'B', 'C', 'D',
    'E', 'F']

/-- Bytes that quote never escapes: ASCII letters, digits and the four
characters underscore, period, hyphen, tilde (the always-safe set; the
safe argument is empty at line 76, so even the slash is escaped). -/
def isUnreservedByte (b : Nat) : Bool :=
  decide ((0x30 ≤ b ∧ b ≤ 0x39) ∨ (0x41 ≤ b ∧ b ≤ 0x5A) ∨
    (0x61 ≤ b ∧ b ≤ 0x7A) ∨ b = 0x2D ∨ b = 0x2E ∨ b = 0x5F ∨ b = 0x7E)

/-- Percent-escaping of one byte of the UTF-8 encoded URL. -/
def quoteByte (b : Nat) : List Char :=
  if isUnreservedByte b then [Char.ofNat b]
  else ['%', hexDigits.getD (b / 16 % 16) '0', hexDigits.getD (b % 16) '0']

/-- Escaping of a byte sequence. -/
def quoteBytes : List Nat → List Char
  | [] => []
  | b :: bs => quoteByte b ++ quoteBytes bs

/-- urllib.parse.quote(url, safe=empty): UTF-8 encode, then
percent-escape every byte outside the always-safe set. -/
def urlquote (url : List Char) : List Char :=
  quoteBytes (utf8Encode url)

/-! ### Paths -/

/-- os.path.basename: the part after the last slash. -/
def basename (p : List Char) : List Char :=
  (p.reverse.takeWhile (fun c => c ≠ '/')).reverse

/-- os.path.join for a directory and a relative name. -/
def joinPath (dir name : List Char) : List Char := dir ++ '/' :: name

/-! ### Association lists standing for Python dicts -/

/-- Dict lookup on an association list (first binding wins; the embedded
operations keep keys unique). -/
def lookupA {β : Type} : List (List Char × β) → List Char → Option β
  | [], _ => none
  | (k, v) :: rest, key => if k = key then some v else lookupA rest key

/-- Dict key removal. -/
def eraseA {β : Type} : List (List Char × β) → List Char → List (List Char × β)
  | [], _ => []
  | (k, v) :: rest, key =>
    if k = key then eraseA rest key else (k, v) :: eraseA rest key

/-! ### The TmpManager class, lines 30-138

The type parameter is the type of the opaque session id supplied by the
extension.  The filesystem is passed explicitly where an operation reads
or writes file content, and filesystem effects are returned as actions. -/

/-- A subprocess handle: pid for identity and the result of a
non-blocking proc.poll() at the moment the manager code runs (none while
the process still runs, otherwise the exit status, which poll() also
leaves in proc.returncode). -/
structure Proc where
  pid : Nat
  returncode : Option Int
deriving DecidableEq

/-- One value of the editors dict: add_editor (line 113) stores the
3-tuple of editor name, session id and process handle under the absolute
filename. -/
structure EditorEntry (α : Type) where
  editor : List Char
  id : α
  proc : Proc
deriving DecidableEq

/-- Outbound messages relevant to poll: send_error (the code formats the
editor name into the text, so the name identifies the message) and
send_death_notice. -/
inductive OutMsg (α : Type) where
  | error (editor : List Char)
  | death_notice (id : α)
deriving DecidableEq

/-- Filesystem effects performed by the store. -/
inductive FsAct where
  | copyfile (src dst : List Char)
  | unlink (path : List Char)
  | mkdir (path : List Char)
deriving DecidableEq

/-- Process-control effects of kill_editors. -/
inductive KillAct where
  | terminate (pid : Nat)
  | sleep (secs : Nat)
  | kill (pid : Nat)
deriving DecidableEq

/-- State of a TmpManager: the scratch directory, the backup directory
(empty string when disabled), the relfn-to-opaque dict of lines 43, the
absfn-to-entry dict of line 44, and the termination policy of lines
45-46. -/
structure TmpManager (α : Type) where
  tmpdir : List Char
  backupdir : List Char
  tmpfiles : List (List Char × α)
  editors : List (List Char × EditorEntry α)
  kill_editors_allow : Bool
  kill_editors_timeout : Nat
deriving DecidableEq

/-- File contents on disk, by absolute path. -/
abbrev FS := List (List Char × List Nat)

/-- Retention window, line 27. -/
def BACKUP_RETENTION_SECS : Int := 24 * 60 * 60

/-- The sweep loop of update_backupdir, lines 66-73: entries that are not
regular files are skipped; a regular file is unlinked when now minus its
mtime exceeds the retention window. -/
structure DirEntry where
  name : List Char
  isFile : Bool
  mtime : Int
deriving DecidableEq

/-- The unlink actions the sweep performs on a directory listing. -/
def sweepActs (backupdir : List Char) (now : Int) :
    List DirEntry → List FsAct
  | [] => []
  | e :: rest =>
    if e.isFile = false then sweepActs backupdir now rest
    else if now - e.mtime > BACKUP_RETENTION_SECS then
      FsAct.unlink (joinPath backupdir e.name) :: sweepActs backupdir now rest
    else sweepActs backupdir now rest

/-- update_backupdir, lines 62-73: store the new value; when it is
nonempty, create the directory and sweep expired regular files. -/
def TmpManager.update_backupdir {α : Type} (m : TmpManager α)
    (val : List Char) (now : Int) (entries : List DirEntry) :
    TmpManager α × List FsAct :=
  let m2 := { m with backupdir := val }
  if val ≠ [] then (m2, FsAct.mkdir val :: sweepActs val now entries)
  else (m2, [])

/-- new, lines 75-88: quote the url, create a unique file named from the
quoted url, a uniqueness token chosen by mkstemp and the extension, write
the UTF-8 encoded text, assert the relative name unused, register the
opaque value, return the absolute path. -/
def TmpManager.new {α : Type} (m : TmpManager α) (fs : FS)
    (text url extension : List Char) (opaque2 : α) (token : List Char) :
    Except PyErr (TmpManager α × FS × List Char) :=
  let sanitized_url := urlquote url
  let absfn :=
    joinPath m.tmpdir (sanitized_url ++ '-' :: token ++ '.' :: extension)
  let fs2 := (absfn, utf8Encode text) :: fs
  let relfn := basename absfn
  if (lookupA m.tmpfiles relfn).isSome then .error .assertionError
  else .ok ({ m with tmpfiles := (relfn, opaque2) :: m.tmpfiles }, fs2, absfn)

/-- delete, lines 90-95: assert the session exists, pop it, unlink the
file, remove the editors entry (a missing key raises KeyError). -/
def TmpManager.delete {α : Type} (m : TmpManager α) (absfn : List Char) :
    Except PyErr (TmpManager α × List FsAct) :=
  let relfn := basename absfn
  if (lookupA m.tmpfiles relfn).isNone then .error .assertionError
  else
    let m2 := { m with tmpfiles := eraseA m.tmpfiles relfn }
    if (lookupA m2.editors absfn).isNone then .error .keyError
    else
      .ok ({ m2 with editors := eraseA m2.editors absfn },
        [FsAct.unlink absfn])

/-- backup, lines 97-103: no-op when no backup directory is configured;
assert the session exists; copy into the backup directory under the same
name only when the file size (the os.stat result, supplied by the
environment) is positive. -/
def TmpManager.backup {α : Type} (m : TmpManager α) (relfn : List Char)
    (size : Nat) : Except PyErr (Option FsAct) :=
  if m.backupdir = [] then .ok none
  else if (lookupA m.tmpfiles relfn).isNone then .error .assertionError
  else if size > 0 then
    .ok (some (FsAct.copyfile (joinPath m.tmpdir relfn)
      (joinPath m.backupdir relfn)))
  else .ok none

/-- Universal-newlines translation of a text-mode read with the default
newline=None, as the open at line 107 performs: in the decoded stream
each CRLF pair and each lone CR becomes a single LF. -/
def translateNewlines : List Char → List Char
  | [] => []
  | [c] => if c = '\r' then ['\n'] else [c]
  | c :: c2 :: rest =>
    if c = '\r' then
      if c2 = '\n' then '\n' :: translateNewlines rest
      else '\n' :: translateNewlines (c2 :: rest)
    else c :: translateNewlines (c2 :: rest)

/-- get, lines 105-108: assert the session exists, open the file under
the scratch directory in text mode, decode it as UTF-8 with
universal-newlines translation (the open passes encoding="utf-8" and
leaves newline at its default None), return the text and the registered
opaque value.  A missing file or undecodable bytes raise. -/
def TmpManager.get {α : Type} (m : TmpManager α) (fs : FS)
    (relfn : List Char) : Except PyErr (List Char × α) :=
  match lookupA m.tmpfiles relfn with
  | none => .error .assertionError
  | some opaque2 =>
    match lookupA fs (joinPath m.tmpdir relfn) with
    | none => .error .exception
    | some bytes =>
      match utf8Decode bytes with
      | none => .error .exception
      | some text => .ok (translateNewlines text, opaque2)

/-- Number of values an item of the editors dict unpacks into: an item of
dict.items() is the pair of key and stored value, a tuple of length 2. -/
def editorsItemLen : Nat := 2

/-- Number of targets in the loop header of poll at line 116: absfn,
editor, id, proc. -/
def pollLoopTargets : Nat := 4

/-- The intended body of the poll loop for one snapshot item, as the
surrounding code and the spec describe it: skip running processes;
for an exited process emit an error when the status is nonzero, then a
death notice, then delete the session. -/
def pollStep {α : Type} (st : Except PyErr (TmpManager α × List (OutMsg α) × List FsAct))
    (item : List Char × EditorEntry α) :
    Except PyErr (TmpManager α × List (OutMsg α) × List FsAct) :=
  match st with
  | .error e => .error e
  | .ok (m, out, acts) =>
    match item.2.proc.returncode with
    | none => .ok (m, out, acts)
    | some rc =>
      let out2 :=
        (if rc ≠ 0 then out ++ [OutMsg.error item.2.editor] else out) ++
          [OutMsg.death_notice item.2.id]
      match m.delete item.1 with
      | .error e => .error e
      | .ok (m2, acts2) => .ok (m2, out2, acts ++ acts2)

/-- The loop of lines 116-123 run over the snapshot list of items, with
the parenthesization the code means to have. -/
def pollBody {α : Type} (m : TmpManager α) :
    Except PyErr (TmpManager α × List (OutMsg α) × List FsAct) :=
  m.editors.foldl pollStep (.ok (m, [], []))

/-- poll, lines 115-123.  The loop header
for absfn, editor, id, proc in list(self._editors.items())
unpacks each item, a pair of key and 3-tuple hence a tuple of length 2,
into 4 targets; in Python unpacking a length-2 tuple into 4 targets
raises ValueError before the body runs.  The loop body therefore runs for
no item: with an empty editors dict poll returns at once, and otherwise
it raises ValueError at the first item. -/
def TmpManager.poll {α : Type} (m : TmpManager α) :
    Except PyErr (TmpManager α × List (OutMsg α) × List FsAct) :=
  match m.editors with
  | [] => .ok (m, [], [])
  | _ :: _ =>
    if editorsItemLen = pollLoopTargets then pollBody m
    else .error .valueError

/-- Whether a Python tuple (the stored 3-tuple value of the editors dict)
has an attribute named terminate: it does not. -/
def tupleHasTerminate : Bool := false

/-- The intended body of kill_editors as the docstring and the spec
describe it: terminate every tracked process, sleep for the grace
period, then kill every tracked process. -/
def killBody {α : Type} (m : TmpManager α) : List KillAct :=
  m.editors.map (fun it => KillAct.terminate it.2.proc.pid) ++
    KillAct.sleep m.kill_editors_timeout ::
      m.editors.map (fun it => KillAct.kill it.2.proc.pid)

/-- kill_editors, lines 129-138: return at once when termination is not
allowed or no editors are tracked.  Otherwise the loop
for proc in self._editors.values() binds proc to the stored 3-tuple, and
proc.terminate() is an attribute lookup on a tuple, raising
AttributeError at the first value. -/
def TmpManager.kill_editors {α : Type} (m : TmpManager α) :
    Except PyErr (List KillAct) :=
  if !m.kill_editors_allow || m.editors.isEmpty then .ok []
  else if tupleHasTerminate then .ok (killBody m)
  else .error .attributeError

/-- The body of the method at lines 54-55: bool(self._tmpfiles), true
exactly when the session dict is nonempty. -/
def TmpManager.boolBody {α : Type} (m : TmpManager α) : Bool :=
  !m.tmpfiles.isEmpty

/-- Number of parameters the method at line 54 declares: self and relfn. -/
def boolMethodParams : Nat := 2

/-- Number of arguments Python passes when evaluating the truth value of
an object, as the loops do at lines 172 and 260: only self. -/
def truthTestArgs : Nat := 1

/-- The truth test not tmp_mgr performed at the end of each event-loop
iteration (lines 172 and 260): Python calls the dunder bool method with
the single argument self, but the method as written requires a second
positional argument relfn, so the call raises TypeError and never reaches
the body. -/
def TmpManager.truthValue {α : Type} (m : TmpManager α) :
    Except PyErr Bool :=
  if truthTestArgs = boolMethodParams then .ok m.boolBody
  else .error .typeError

/-! ### Concrete states used as evidence -/

/-- A store with one registered session (relative name f, opaque id 7)
and one tracked editor process that has already exited with status 0. -/
def demoMgr : TmpManager Nat :=
  { tmpdir := ['/', 't']
    backupdir := []
    tmpfiles := [(['f'], 7)]
    editors := [(joinPath ['/', 't'] ['f'],
      { editor := ['v', 'i'], id := 7, proc := { pid := 3, returncode := some 0 } })]
    kill_editors_allow := false
    kill_editors_timeout := 1 }

/-- A store with no sessions and no tracked editors. -/
def demoEmptyMgr : TmpManager Nat :=
  { tmpdir := ['/', 't']
    backupdir := []
    tmpfiles := []
    editors := []
    kill_editors_allow := false
    kill_editors_timeout := 1 }

/-- demoMgr with forced termination permitted. -/
def demoArmedMgr : TmpManager Nat :=
  { demoMgr with kill_editors_allow := true }

/-- demoEmptyMgr with forced termination permitted. -/
def demoAllowedEmptyMgr : TmpManager Nat :=
  { demoEmptyMgr with kill_editors_allow := true }

/-- demoMgr with a backup directory configured. -/
def demoBackupMgr : TmpManager Nat :=
  { demoMgr with backupdir := ['b'] }

/-- The store state after the witness call of new for C10. -/
def roundtripMgr : TmpManager Nat :=
  { demoEmptyMgr with
      tmpfiles := [(['u', '-', 'k', '.', 't', 'x', 't'], 5)] }

/-- The absolute path returned by the witness call of new for C10. -/
def roundtripAbsfn : List Char :=
  ['/', 't', '/', 'u', '-', 'k', '.', 't', 'x', 't']

/-- The filesystem after the witness call of new for C10. -/
def roundtripFS : FS := [(roundtripAbsfn, [104, 105])]

/-- The filesystem after the C10 counterexample call of new, whose text
a-CR-b encodes to the bytes 97, 13, 98. -/
def crFS : FS := [(roundtripAbsfn, [97, 13, 98])]

end Textern

namespace Textern

/-! ### Lemmas about rfindNL and charsSinceLastNL -/

theorem rfindNL_append_singleton (xs : List Char) (x : Char) :
    rfindNL (xs ++ [x]) =
      if x = '\n' then some xs.length else rfindNL xs := by
  induction xs with
  | nil => simp [rfindNL]
  | cons c cs ih =>
    simp only [List.cons_append, rfindNL, List.append_eq]
    rw [ih]
    by_cases hx : x = '\n'
    · simp [hx]
    · simp [hx]

theorem rfindNL_eq_none_iff (l : List Char) :
    rfindNL l = none ↔ '\n' ∉ l := by
  induction l with
  | nil => simp [rfindNL]
  | cons c cs ih =>
    simp only [rfindNL, List.mem_cons]
    cases h : rfindNL cs with
    | some j =>
      have hmem : '\n' ∈ cs := by
        by_contra hm
        rw [ih.mpr hm] at h
        exact Option.noConfusion h
      simp [hmem]
    | none =>
      have hmem : '\n' ∉ cs := ih.mp h
      by_cases hc : c = '\n'
      · simp [hc]
      · simp only [if_neg hc, h, hmem]
        constructor
        · rintro - (heq | hfalse)
          · exact hc heq.symm
          · exact hfalse
        · intro
          trivial

theorem rfindNL_lt_length (l : List Char) (i : Nat) (h : rfindNL l = some i) :
    i < l.length := by
  induction l generalizing i with
  | nil => exact absurd h (by simp [rfindNL])
  | cons c cs ih =>
    simp only [rfindNL] at h
    cases hcs : rfindNL cs with
    | some j =>
      simp only [hcs] at h
      injection h with h
      subst h
      have := ih j hcs
      simp only [List.length_cons]
      omega
    | none =>
      simp only [hcs] at h
      by_cases hc : c = '\n'
      · rw [if_pos hc] at h
        injection h with h
        subst h
        simp
      · rw [if_neg hc] at h
        exact absurd h (by simp)

theorem charsSinceLastNL_append_singleton (xs : List Char) (x : Char) :
    charsSinceLastNL (xs ++ [x]) =
      if x = '\n' then 0 else charsSinceLastNL xs + 1 := by
  by_cases hx : x = '\n' <;>
    simp [charsSinceLastNL, List.takeWhile_cons, hx]

/-- The column computed by the source (offset when no newline, slice after
rindex otherwise) equals the length of the longest newline-free suffix. -/
theorem column_eq_charsSinceLastNL (l : List Char) :
    (if l.count '\n' = 0 then l.length
      else
        match rfindNL l with
        | some ri => (l.drop (ri + 1)).length
        | none => 0) = charsSinceLastNL l := by
  induction l using List.reverseRecOn with
  | nil => simp [charsSinceLastNL]
  | append_singleton xs x ih =>
    rw [charsSinceLastNL_append_singleton, rfindNL_append_singleton]
    by_cases hx : x = '\n'
    · rw [if_pos hx, if_pos hx]
      rw [if_neg (show ¬ (xs ++ [x]).count '\n' = 0 by
        subst hx; simp [List.count_append])]
      have hdrop : (xs ++ [x]).drop (xs.length + 1) = [] :=
        List.drop_eq_nil_of_le (by simp)
      simp [hdrop]
    · rw [if_neg hx, if_neg hx]
      have hcount : (xs ++ [x]).count '\n' = xs.count '\n' := by
        simp only [List.count_append]
        have : List.count '\n' [x] = 0 := by
          apply List.count_eq_zero.mpr
          intro hmem2
          simp only [List.mem_singleton] at hmem2
          exact hx hmem2.symm
        omega
      rw [hcount]
      by_cases h0 : xs.count '\n' = 0
      · rw [if_pos h0]
        rw [if_pos h0] at ih
        simp only [List.length_append, List.length_singleton]
        omega
      · rw [if_neg h0]
        rw [if_neg h0] at ih
        cases hfind : rfindNL xs with
        | none =>
          have : xs.count '\n' = 0 :=
            List.count_eq_zero.mpr ((rfindNL_eq_none_iff xs).mp hfind)
          exact absurd this h0
        | some ri =>
          simp only [hfind] at ih ⊢
          have hlt := rfindNL_lt_length xs ri hfind
          simp only [List.length_drop, List.length_append,
            List.length_singleton] at ih ⊢
          omega

/-- C5: for every text and integer caret offset, the conversion clamps the
offset into [0, length], returns as line the number of newlines strictly
before the clamped offset and as column the number of characters after the
last newline before it (the clamped offset itself when no newline
precedes); and on the text ab-newline-cd the offsets 0, 3, 5 give (0,0),
(1,0), (1,2). -/
theorem offset_to_line_and_column_spec :
    (∀ (text : List Char) (offset : Int),
      offset_to_line_and_column text offset =
        ((text.take (clampOffset text offset)).count '\n',
          charsSinceLastNL (text.take (clampOffset text offset)))) ∧
    offset_to_line_and_column ['a', 'b', '\n', 'c', 'd'] 0 = (0, 0) ∧
    offset_to_line_and_column ['a', 'b', '\n', 'c', 'd'] 3 = (1, 0) ∧
    offset_to_line_and_column ['a', 'b', '\n', 'c', 'd'] 5 = (1, 2) := by
  refine ⟨fun text offset => ?_, by decide, by decide, by decide⟩
  have hoff : clampOffset text offset ≤ text.length := by
    unfold clampOffset
    omega
  have hlen : (text.take (clampOffset text offset)).length =
      clampOffset text offset := by
    rw [List.length_take]; omega
  simp only [offset_to_line_and_column]
  rw [← column_eq_charsSinceLastNL (text.take (clampOffset text offset))]
  by_cases h0 : (text.take (clampOffset text offset)).count '\n' = 0
  · rw [if_pos h0, if_pos h0, hlen]
  · rw [if_neg h0, if_neg h0]
    cases hfind : rfindNL (text.take (clampOffset text offset)) with
    | some ri => simp only [hfind]
    | none => simp only [hfind]

/-- C3 counterexample input: a stream delivering a single byte 0 and then
closing is a partial length field, yet readFrame does not signal eof. -/
theorem readFrame_one_byte_not_eof :
    readFrame [0] = FrameResult.structError ∧
      FrameResult.structError ≠ FrameResult.eof := by
  exact ⟨rfl, by decide⟩

/-- C3 (amended): when the stream closes during the length field, the
reader signals end-of-stream normally only if zero bytes were delivered;
after 1 to 3 bytes it raises a struct unpacking fault instead. -/
theorem readFrame_partial_length_field (s : List Nat) (h : s.length < 4) :
    (s = [] → readFrame s = FrameResult.eof) ∧
      (s ≠ [] → readFrame s = FrameResult.structError) := by
  constructor
  · rintro rfl; rfl
  · intro hne
    have hlen : s.length ≠ 0 := fun h0 => hne (List.eq_nil_of_length_eq_zero h0)
    have htake : (s.take 4).length = s.length := by
      rw [List.length_take]; omega
    unfold readFrame unpackNativeUInt
    simp only [htake]
    rw [if_neg hlen, if_neg (by omega : ¬ s.length = 4)]

/-- Witness for readFrame_partial_length_field at the empty stream. -/
theorem readFrame_partial_length_field_witness :
    ([] : List Nat).length < 4 ∧ readFrame [] = FrameResult.eof :=
  ⟨by decide, (readFrame_partial_length_field [] (by decide)).1 rfl⟩

/-- C4: a complete 4-byte length prefix declaring length L followed by
fewer than L payload bytes before closure makes the reader raise the
framing fault, never a decoded frame and never a normal end-of-stream. -/
theorem readFrame_truncated_payload (s : List Nat) (L : Nat)
    (h4 : 4 ≤ s.length)
    (hL : unpackNativeUInt (s.take 4) = some L)
    (hshort : (s.drop 4).length < L) :
    readFrame s = FrameResult.framingError L (s.drop 4).length := by
  have htake : (s.take 4).length = 4 := by
    rw [List.length_take]; omega
  have hmsg : ((s.drop 4).take L).length = (s.drop 4).length := by
    rw [List.length_take]; omega
  unfold readFrame
  simp only [htake, hL]
  rw [if_neg (by omega : ¬ (4 : Nat) = 0)]
  simp only [hmsg]
  rw [if_pos (by omega : (s.drop 4).length ≠ L)]

/-- Witness for readFrame_truncated_payload: prefix declaring 2 bytes,
stream closing after a single payload byte. -/
theorem readFrame_truncated_payload_witness :
    readFrame [2, 0, 0, 0, 9] = FrameResult.framingError 2 1 :=
  readFrame_truncated_payload [2, 0, 0, 0, 9] 2 (by decide) (by decide)
    (by decide)

/-- The loop of get_final_editor_args, for any starting value of
fn_added, maps the substitution over the tokens and appends the path
exactly when neither the flag was set nor any token contains the
filename placeholder. -/
theorem gfeaLoop_eq (absfn : List Char) (line column : Nat)
    (args : List (List Char)) (b : Bool) :
    gfeaLoop absfn line column args b =
      args.map (substArg absfn line column) ++
        (if b || args.any (fun a => containsSub pS a) then [] else [absfn]) := by
  induction args generalizing b with
  | nil => simp [gfeaLoop]
  | cons a rest ih =>
    simp only [gfeaLoop, ih, List.map_cons, List.any_cons, List.cons_append]
    rw [Bool.or_assoc]

/-- C6: argument templating substitutes the placeholders token by token
(filename, 1-based and 0-based line, 1-based and 0-based column, in
source order), and the resulting list carries the absolute path appended
as an extra final argument if and only if no input token contained the
filename placeholder. -/
theorem get_final_editor_args_spec (editor_args : List (List Char))
    (absfn : List Char) (line column : Nat) :
    get_final_editor_args editor_args absfn line column =
      editor_args.map (substArg absfn line column) ++
        (if editor_args.any (fun a => containsSub pS a) then []
         else [absfn]) := by
  unfold get_final_editor_args
  rw [gfeaLoop_eq]
  simp

/-! ### C1: poll -/

/-- C1 fails on the code: with one tracked editor process that has
already exited with status 0, poll raises ValueError from the loop-header
tuple unpacking instead of emitting the death notice and deleting the
session; for comparison, the loop body the code means to run (pollBody)
does emit exactly the death notice for id 7 and delete the session. -/
theorem poll_raises_on_tracked_editor :
    demoMgr.poll = Except.error PyErr.valueError ∧
      pollBody demoMgr =
        Except.ok
          ({ demoMgr with tmpfiles := [], editors := [] },
            [OutMsg.death_notice 7],
            [FsAct.unlink (joinPath ['/', 't'] ['f'])]) :=
  ⟨rfl, rfl⟩

/-! ### C2: emptiness predicate -/

/-- C2 fails on the code: the body of the predicate does report
no-active-sessions exactly when the session dict is empty, but the truth
test the event loops perform after poll raises TypeError (the dunder bool
method declares a spurious second parameter), so neither loop can observe
the predicate. -/
theorem truth_test_raises :
    demoEmptyMgr.truthValue = Except.error PyErr.typeError ∧
      demoMgr.truthValue = Except.error PyErr.typeError ∧
      demoEmptyMgr.boolBody = false ∧ demoMgr.boolBody = true :=
  ⟨rfl, rfl, rfl, rfl⟩

/-! ### C9: kill_editors -/

/-- C9 fails on the code: kill_editors is a correct no-op when forced
termination is not permitted or no editors are tracked, but in the armed
case it raises AttributeError at the first tracked editor (the loop binds
the stored 3-tuple, not the process handle) instead of terminating the
processes; killBody is what the docstring and spec describe. -/
theorem kill_editors_raises :
    demoMgr.kill_editors = Except.ok [] ∧
      demoAllowedEmptyMgr.kill_editors = Except.ok [] ∧
      demoArmedMgr.kill_editors = Except.error PyErr.attributeError ∧
      killBody demoArmedMgr =
        [KillAct.terminate 3, KillAct.sleep 1, KillAct.kill 3] :=
  ⟨rfl, rfl, rfl, rfl⟩

/-! ### C7: backup -/

/-- C7: for a registered session, backup copies the file under the same
name into the backup directory exactly when a backup directory is
configured and the current size is nonzero, and performs no copy
otherwise. -/
theorem backup_copies_iff {α : Type} (m : TmpManager α)
    (relfn : List Char) (size : Nat)
    (hreg : (lookupA m.tmpfiles relfn).isSome = true) :
    m.backup relfn size =
      Except.ok (if m.backupdir = [] ∨ size = 0 then none
        else some (FsAct.copyfile (joinPath m.tmpdir relfn)
          (joinPath m.backupdir relfn))) := by
  unfold TmpManager.backup
  have hnone : (lookupA m.tmpfiles relfn).isNone = false := by
    rcases Option.isSome_iff_exists.mp hreg with ⟨v, hv⟩
    simp [hv]
  by_cases hb : m.backupdir = []
  · simp [hb]
  · rw [if_neg hb]
    simp only [hnone, Bool.false_eq_true, if_false]
    by_cases hs : size = 0
    · simp [hs, hb]
    · simp [hs, hb, Nat.pos_of_ne_zero hs]

/-- Witness for backup_copies_iff: with a backup directory configured and
a nonzero size the copy action is produced. -/
theorem backup_copies_iff_witness :
    (lookupA demoBackupMgr.tmpfiles ['f']).isSome = true ∧
      demoBackupMgr.backup ['f'] 3 =
        Except.ok (some (FsAct.copyfile (joinPath ['/', 't'] ['f'])
          (joinPath ['b'] ['f']))) := by
  refine ⟨rfl, ?_⟩
  have h := backup_copies_iff demoBackupMgr ['f'] 3 rfl
  simpa using h

/-! ### C8: retention sweep -/

/-- Membership of an unlink action in the sweep output characterizes
exactly the listed entries that are regular files strictly older than the
retention window. -/
theorem sweepActs_mem (backupdir : List Char) (now : Int)
    (entries : List DirEntry) (n : List Char) :
    FsAct.unlink (joinPath backupdir n) ∈ sweepActs backupdir now entries ↔
      ∃ e, e ∈ entries ∧ e.name = n ∧ e.isFile = true ∧
        now - e.mtime > BACKUP_RETENTION_SECS := by
  induction entries with
  | nil => simp [sweepActs]
  | cons e rest ih =>
    by_cases hf : e.isFile = false
    · rw [show sweepActs backupdir now (e :: rest) =
          sweepActs backupdir now rest by simp [sweepActs, hf]]
      rw [ih]
      constructor
      · rintro ⟨e2, h2, h3⟩
        exact ⟨e2, List.mem_cons_of_mem e h2, h3⟩
      · rintro ⟨e2, h2, hn, hfile, hold⟩
        rcases List.mem_cons.mp h2 with rfl | h2
        · simp [hfile] at hf
        · exact ⟨e2, h2, hn, hfile, hold⟩
    · have hfile : e.isFile = true := by
        cases h : e.isFile
        · exact absurd h hf
        · rfl
      by_cases hold : now - e.mtime > BACKUP_RETENTION_SECS
      · rw [show sweepActs backupdir now (e :: rest) =
            FsAct.unlink (joinPath backupdir e.name) ::
              sweepActs backupdir now rest by
          simp [sweepActs, hfile, hold]]
        rw [List.mem_cons, ih]
        constructor
        · rintro (heq | ⟨e2, h2, h3⟩)
          · have hn : e.name = n := by
              have := FsAct.unlink.inj heq.symm
              unfold joinPath at this
              have := List.append_cancel_left this
              exact (List.cons.inj this).2
            exact ⟨e, List.mem_cons_self e rest, hn, hfile, hold⟩
          · exact ⟨e2, List.mem_cons_of_mem e h2, h3⟩
        · rintro ⟨e2, h2, hn, hfile2, hold2⟩
          rcases List.mem_cons.mp h2 with rfl | h2
          · exact Or.inl (by rw [hn])
          · exact Or.inr ⟨e2, h2, hn, hfile2, hold2⟩
      · rw [show sweepActs backupdir now (e :: rest) =
            sweepActs backupdir now rest by simp [sweepActs, hfile, hold]]
        rw [ih]
        constructor
        · rintro ⟨e2, h2, h3⟩
          exact ⟨e2, List.mem_cons_of_mem e h2, h3⟩
        · rintro ⟨e2, h2, hn, hfile2, hold2⟩
          rcases List.mem_cons.mp h2 with rfl | h2
          · exact absurd hold2 hold
          · exact ⟨e2, h2, hn, hfile2, hold2⟩

/-- C8: on every (re)configuration the stored backup directory becomes
the new value, and when that value is nonempty the sweep unlinks a
regular file exactly when its age strictly exceeds the 24-hour retention
window; files exactly at or under the window, non-regular entries, and
everything under an empty (disabled) value are kept. -/
theorem update_backupdir_retention {α : Type} (m : TmpManager α)
    (val : List Char) (now : Int) (entries : List DirEntry)
    (n : List Char) :
    (m.update_backupdir val now entries).1 = { m with backupdir := val } ∧
      (FsAct.unlink (joinPath val n) ∈ (m.update_backupdir val now entries).2 ↔
        val ≠ [] ∧ ∃ e, e ∈ entries ∧ e.name = n ∧ e.isFile = true ∧
          now - e.mtime > BACKUP_RETENTION_SECS) := by
  unfold TmpManager.update_backupdir
  by_cases hv : val = []
  · subst hv
    simp
  · rw [if_pos hv]
    refine ⟨rfl, ?_⟩
    rw [show (({ m with backupdir := val },
        FsAct.mkdir val :: sweepActs val now entries) :
        TmpManager α × List FsAct).2 =
      FsAct.mkdir val :: sweepActs val now entries from rfl]
    rw [List.mem_cons, sweepActs_mem]
    constructor
    · rintro (heq | h)
      · exact absurd heq (by simp)
      · exact ⟨hv, h⟩
    · rintro ⟨-, h⟩
      exact Or.inr h

/-! ### C10: the UTF-8 round trip and the new/get relation -/

/-- The code point of a character, as a Nat, is a valid Unicode scalar
value. -/
theorem char_toNat_valid (c : Char) :
    c.toNat < 0xD800 ∨ (0xDFFF < c.toNat ∧ c.toNat < 0x110000) := by
  rcases c.valid with h | ⟨h1, h2⟩
  · exact Or.inl (UInt32.toNat_lt_of_lt (by decide) h)
  · exact Or.inr ⟨UInt32.lt_toNat_of_lt (by decide) h1,
      UInt32.toNat_lt_of_lt (by decide) h2⟩

/-- Packing a valid scalar value into a character preserves it. -/
theorem char_toNat_ofNat {n : Nat} (h : n.isValidChar) :
    (Char.ofNat n).toNat = n := by
  unfold Char.ofNat
  rw [dif_pos h]
  rfl

/-- Decoding one sequence undoes the encoding of one scalar value. -/
theorem utf8DecodeOne_encodeScalar (c : Char) (rest : List Nat) :
    utf8DecodeOne (utf8EncodeScalar c.toNat ++ rest) =
      some (c.toNat, rest) := by
  have hval := char_toNat_valid c
  set n := c.toNat with hn
  rcases Nat.lt_or_ge n 0x80 with h1 | h1
  · unfold utf8EncodeScalar
    rw [if_pos h1]
    simp only [List.cons_append, List.nil_append]
    simp [utf8DecodeOne, h1]
  · rcases Nat.lt_or_ge n 0x800 with h2 | h2
    · unfold utf8EncodeScalar
      rw [if_neg (by omega), if_pos h2]
      simp only [List.cons_append, List.nil_append]
      have e1 : ¬ (0xC0 + n / 64 < 0x80) := by omega
      have e2 : ¬ (0xC0 + n / 64 < 0xC2) := by omega
      have e3 : 0xC0 + n / 64 < 0xE0 := by omega
      have e4 : 0x80 ≤ 0x80 + n % 64 ∧ 0x80 + n % 64 < 0xC0 := by omega
      have e5 : (0xC0 + n / 64 - 0xC0) * 64 + (0x80 + n % 64 - 0x80) = n := by
        omega
      simp only [utf8DecodeOne, e1, e2, e3, e4, e5, if_false, if_true,
        and_self, if_neg, if_pos]
    · rcases Nat.lt_or_ge n 0x10000 with h3 | h3
      · have hsur : n < 0xD800 ∨ 0xDFFF < n := by
          rcases hval with h | ⟨ha, hb⟩
          · exact Or.inl h
          · exact Or.inr ha
        unfold utf8EncodeScalar
        rw [if_neg (by omega), if_neg (by omega), if_pos h3]
        simp only [List.cons_append, List.nil_append]
        have e1 : ¬ (0xE0 + n / 4096 < 0x80) := by omega
        have e2 : ¬ (0xE0 + n / 4096 < 0xC2) := by omega
        have e3 : ¬ (0xE0 + n / 4096 < 0xE0) := by omega
        have e4 : 0xE0 + n / 4096 < 0xF0 := by omega
        have e5 : (0x80 ≤ 0x80 + n / 64 % 64 ∧ 0x80 + n / 64 % 64 < 0xC0) ∧
            (0x80 ≤ 0x80 + n % 64 ∧ 0x80 + n % 64 < 0xC0) := by omega
        have e6 : (0xE0 + n / 4096 - 0xE0) * 4096 +
            (0x80 + n / 64 % 64 - 0x80) * 64 + (0x80 + n % 64 - 0x80) = n := by
          omega
        have e7 : ¬ (n < 0x800) := by omega
        have e8 : ¬ (0xD800 ≤ n ∧ n < 0xE000) := by omega
        simp only [utf8DecodeOne, e1, e2, e3, e4, e5, if_false, if_true,
          and_self]
        simp only [e6, e7, e8, if_false]
      · have hup : n < 0x110000 := by
          rcases hval with h | ⟨ha, hb⟩
          · omega
          · exact hb
        unfold utf8EncodeScalar
        rw [if_neg (by omega), if_neg (by omega), if_neg (by omega)]
        simp only [List.cons_append, List.nil_append]
        have e1 : ¬ (0xF0 + n / 262144 < 0x80) := by omega
        have e2 : ¬ (0xF0 + n / 262144 < 0xC2) := by omega
        have e3 : ¬ (0xF0 + n / 262144 < 0xE0) := by omega
        have e4 : ¬ (0xF0 + n / 262144 < 0xF0) := by omega
        have e5 : 0xF0 + n / 262144 < 0xF5 := by omega
        have e6 : (0x80 ≤ 0x80 + n / 4096 % 64 ∧
            0x80 + n / 4096 % 64 < 0xC0) ∧
            (0x80 ≤ 0x80 + n / 64 % 64 ∧ 0x80 + n / 64 % 64 < 0xC0) ∧
            (0x80 ≤ 0x80 + n % 64 ∧ 0x80 + n % 64 < 0xC0) := by omega
        have e7 : (0xF0 + n / 262144 - 0xF0) * 262144 +
            (0x80 + n / 4096 % 64 - 0x80) * 4096 +
            (0x80 + n / 64 % 64 - 0x80) * 64 + (0x80 + n % 64 - 0x80) = n := by
          omega
        have e8 : ¬ (n < 0x10000) := by omega
        have e9 : ¬ (0x10FFFF < n) := by omega
        simp only [utf8DecodeOne, e1, e2, e3, e4, e5, e6, if_false, if_true,
          and_self]
        simp only [e7, e8, e9, if_false]

/-- Decoding the empty byte list. -/
theorem utf8Decode_nil : utf8Decode [] = some [] := by
  rw [utf8Decode]
  rfl

/-- One unfolding step of the decoder on a successfully decoded head. -/
theorem utf8Decode_step (s : List Nat) (n : Nat) (rest : List Nat)
    (h : utf8DecodeOne s = some (n, rest)) :
    utf8Decode s = (utf8Decode rest).map (fun t => Char.ofNat n :: t) := by
  rw [utf8Decode]
  split
  · rename_i heq
    rw [h] at heq
    cases heq
  · rename_i n2 rest2 heq
    rw [h] at heq
    injection heq with heq2
    injection heq2 with h3 h4
    subst h3
    subst h4
    rfl

/-- Decoding undoes the encoding of one character at the head. -/
theorem utf8Decode_encodeScalar (c : Char) (rest : List Nat) :
    utf8Decode (utf8EncodeScalar c.toNat ++ rest) =
      (utf8Decode rest).map (fun t => c :: t) := by
  rw [utf8Decode_step _ c.toNat rest (utf8DecodeOne_encodeScalar c rest)]
  rw [Char.ofNat_toNat]

/-- UTF-8 decoding undoes UTF-8 encoding on every string. -/
theorem utf8Decode_utf8Encode (text : List Char) :
    utf8Decode (utf8Encode text) = some text := by
  induction text with
  | nil => exact utf8Decode_nil
  | cons c cs ih =>
    show utf8Decode (utf8EncodeScalar c.toNat ++ utf8Encode cs) = _
    rw [utf8Decode_encodeScalar, ih]
    rfl

/-- No hexadecimal digit character is a slash. -/
theorem hexDigit_ne_slash (i : Nat) : hexDigits.getD i '0' ≠ '/' := by
  rcases Nat.lt_or_ge i 16 with h | h
  · interval_cases i <;> decide
  · rw [List.getD_eq_getElem?_getD, List.getElem?_eq_none]
    · decide
    · have hlen : hexDigits.length = 16 := rfl
      omega

/-- quote never produces a slash from any byte: unreserved bytes are not
the slash byte, and escapes consist of a percent sign and hex digits. -/
theorem slash_not_mem_quoteByte (b : Nat) : '/' ∉ quoteByte b := by
  intro hm
  unfold quoteByte at hm
  by_cases h : isUnreservedByte b = true
  · rw [if_pos h] at hm
    simp only [List.mem_singleton] at hm
    unfold isUnreservedByte at h
    have hb := of_decide_eq_true h
    have hvalid : Nat.isValidChar b := Or.inl (by omega)
    have h47 : (47 : Nat) = b := by
      have := congrArg Char.toNat hm
      rw [char_toNat_ofNat hvalid] at this
      exact this
    omega
  · rw [if_neg h] at hm
    rcases List.mem_cons.mp hm with heq | hm2
    · exact absurd heq (by decide)
    · rcases List.mem_cons.mp hm2 with heq | hm3
      · exact hexDigit_ne_slash (b / 16 % 16) heq.symm
      · rcases List.mem_cons.mp hm3 with heq | hm4
        · exact hexDigit_ne_slash (b % 16) heq.symm
        · exact absurd hm4 (List.not_mem_nil '/')

/-- quote never produces a slash from any byte sequence. -/
theorem slash_not_mem_quoteBytes (bs : List Nat) : '/' ∉ quoteBytes bs := by
  induction bs with
  | nil => simp [quoteBytes]
  | cons b rest ih =>
    simp only [quoteBytes, List.mem_append]
    rintro (h | h)
    · exact slash_not_mem_quoteByte b h
    · exact ih h

/-- The quoted url contains no slash (safe is empty at line 76, so even
slashes of the url itself are escaped). -/
theorem slash_not_mem_urlquote (url : List Char) : '/' ∉ urlquote url :=
  slash_not_mem_quoteBytes (utf8Encode url)

/-- takeWhile runs through a block of satisfying elements and stops at a
failing sentinel. -/
theorem takeWhile_append_sentinel {α : Type} (p : α → Bool) (xs ys : List α)
    (y : α) (hxs : ∀ x ∈ xs, p x = true) (hy : p y = false) :
    (xs ++ y :: ys).takeWhile p = xs := by
  induction xs with
  | nil => simp [List.takeWhile_cons, hy]
  | cons a rest ih =>
    have ha : p a = true := hxs a (List.mem_cons_self a rest)
    simp only [List.cons_append, List.takeWhile_cons, ha, if_true]
    rw [ih (fun x hx => hxs x (List.mem_cons_of_mem a hx))]

/-- basename recovers a slash-free name joined under any directory. -/
theorem basename_joinPath (dir name : List Char) (h : '/' ∉ name) :
    basename (joinPath dir name) = name := by
  unfold basename joinPath
  rw [List.reverse_append, List.reverse_cons, List.append_assoc,
    List.singleton_append]
  rw [takeWhile_append_sentinel (fun c => decide (c ≠ '/')) name.reverse
    dir.reverse '/'
    (fun x hx => decide_eq_true
      (show x ≠ '/' from
        fun hcontra => h (hcontra ▸ List.mem_reverse.mp hx)))
    (by decide)]
  exact List.reverse_reverse name

/-- The universal-newlines translation is the identity on texts without
a carriage return. -/
theorem translateNewlines_of_no_cr (l : List Char) (h : '\r' ∉ l) :
    translateNewlines l = l := by
  induction l with
  | nil => rfl
  | cons c rest ih =>
    have hc : c ≠ '\r' := fun hcr => h (hcr ▸ List.mem_cons_self c rest)
    have hrest : '\r' ∉ rest := fun hm => h (List.mem_cons_of_mem c hm)
    cases rest with
    | nil => simp [translateNewlines, hc]
    | cons c2 rest2 =>
      simp only [translateNewlines, if_neg hc]
      rw [ih hrest]

/-- C10 counterexample: with the text a-CR-b the round trip returns
a-LF-b, not the original text: the text-mode open of get translates the
lone carriage return to a line feed, so the claim fails as universally
stated. -/
theorem new_get_cr_not_roundtrip :
    demoEmptyMgr.new [] ['a', '\r', 'b'] ['u'] ['t', 'x', 't'] 5 ['k'] =
      Except.ok (roundtripMgr, crFS, roundtripAbsfn) ∧
      roundtripMgr.get crFS (basename roundtripAbsfn) =
        Except.ok (['a', '\n', 'b'], 5) ∧
      (['a', '\n', 'b'] : List Char) ≠ ['a', '\r', 'b'] := by
  have hdec : utf8Decode [97, 13, 98] = some ['a', '\r', 'b'] := by
    rw [utf8Decode_step [97, 13, 98] 97 [13, 98] rfl,
      utf8Decode_step [13, 98] 13 [98] rfl,
      utf8Decode_step [98] 98 [] rfl,
      utf8Decode_nil]
    rfl
  refine ⟨rfl, ?_, by decide⟩
  have hget : roundtripMgr.get crFS (basename roundtripAbsfn) =
      match utf8Decode [97, 13, 98] with
      | none => Except.error PyErr.exception
      | some text => Except.ok (translateNewlines text, 5) := rfl
  rw [hget, hdec]
  rfl

/-- C10 (amended): for every carriage-return-free text, every url,
extension and opaque id, when new succeeds (the uniqueness token and the
extension are slash-free, as mkstemp guarantees for its token, and the
fresh name is unused), get applied to the basename of the returned
absolute path yields exactly the original text, UTF-8 encoded on write
and decoded on read, paired with the same opaque value that was
registered.  Without the carriage-return restriction the claim fails:
the text-mode read translates CRLF and lone CR to LF. -/
theorem new_get_roundtrip {α : Type} (m : TmpManager α) (fs : FS)
    (text url extension : List Char) (opaque2 : α) (token : List Char)
    (hcr : '\r' ∉ text)
    (htok : '/' ∉ token) (hext : '/' ∉ extension)
    (m2 : TmpManager α) (fs2 : FS) (absfn : List Char)
    (hnew : m.new fs text url extension opaque2 token =
      Except.ok (m2, fs2, absfn)) :
    m2.get fs2 (basename absfn) = Except.ok (text, opaque2) := by
  have hslash : '/' ∉ urlquote url ++ '-' :: token ++ '.' :: extension := by
    intro hm
    have h1 := slash_not_mem_urlquote url
    have hd1 : ¬ ('/' = '-') := by decide
    have hd2 : ¬ ('/' = '.') := by decide
    simp only [List.mem_append, List.mem_cons] at hm
    tauto
  simp only [TmpManager.new] at hnew
  rw [basename_joinPath m.tmpdir _ hslash] at hnew
  split at hnew
  · exact absurd hnew (by simp)
  · rename_i hfresh
    simp only [Except.ok.injEq, Prod.mk.injEq] at hnew
    obtain ⟨hm2, hfs2, habs⟩ := hnew
    subst hm2
    subst hfs2
    subst habs
    rw [basename_joinPath m.tmpdir _ hslash]
    simp [TmpManager.get, lookupA, utf8Decode_utf8Encode,
      translateNewlines_of_no_cr text hcr]

/-- Witness for new_get_roundtrip: text hi, url u, extension txt, opaque
id 5, token k on an empty store. -/
theorem new_get_roundtrip_witness :
    demoEmptyMgr.new [] ['h', 'i'] ['u'] ['t', 'x', 't'] 5 ['k'] =
      Except.ok (roundtripMgr, roundtripFS, roundtripAbsfn) ∧
      roundtripMgr.get roundtripFS (basename roundtripAbsfn) =
        Except.ok (['h', 'i'], 5) := by
  have hnew : demoEmptyMgr.new [] ['h', 'i'] ['u'] ['t', 'x', 't'] 5 ['k'] =
      Except.ok (roundtripMgr, roundtripFS, roundtripAbsfn) := rfl
  exact ⟨hnew, new_get_roundtrip demoEmptyMgr [] ['h', 'i'] ['u']
    ['t', 'x', 't'] 5 ['k'] (by decide) (by decide) (by decide)
    roundtripMgr roundtripFS roundtripAbsfn hnew⟩

end Textern
